import Mathlib

set_option maxRecDepth 100000

/-!
Shallow embedding of `src/parser.ts` from the connect-es-http-paths repository:
a regex-based extractor that recovers services, rpc methods and their
`google.api.http` bindings from raw proto text.  Text is modelled as
`List Char`; each JavaScript regular expression used by the source is
translated into an explicit scanner.  All greedy sub-patterns of those
regexes (`\s*`, `\s+`, `\w+`, `[\w.]+`, `[^"']+`) are followed in the
pattern by a character that the repeated class can never match, so greedy
matching with no backtracking (maximal munch, implemented below) yields
exactly the same matches as the backtracking JavaScript engine.
-/

/-- ECMAScript `\s` (WhiteSpace union LineTerminator) character class. -/
def isSpaceJS (c : Char) : Bool :=
  c == ' ' || c == '\t' || c == '\n' || c == '\r' ||
  c.toNat == 11 || c.toNat == 12 || c.toNat == 160 || c.toNat == 5760 ||
  (8192 ≤ c.toNat && c.toNat ≤ 8202) || c.toNat == 8232 || c.toNat == 8233 ||
  c.toNat == 8239 || c.toNat == 8287 || c.toNat == 12288 || c.toNat == 65279

/-- ECMAScript `\w` character class: `[A-Za-z0-9_]`. -/
def isWordChar (c : Char) : Bool :=
  (('a' ≤ c && c ≤ 'z') || ('A' ≤ c && c ≤ 'Z') || ('0' ≤ c && c ≤ '9') || c == '_')

/-- The `[\w.]` character class used for dotted identifiers. -/
def isWordDotChar (c : Char) : Bool :=
  isWordChar c || c == '.'

/-- ECMAScript LineTerminator (positions after one are `^` anchors under the m flag). -/
def isLineTerm (c : Char) : Bool :=
  c == '\n' || c == '\r' || c.toNat == 8232 || c.toNat == 8233

/-- ASCII lower-casing, as applied by the regex `i` flag to the ASCII verb letters. -/
def toLowerAscii (c : Char) : Char :=
  if 'A' ≤ c && c ≤ 'Z' then Char.ofNat (c.toNat + 32) else c

/-- The opening brace character. -/
def lbrace : Char := Char.ofNat 123

/-- The closing brace character. -/
def rbrace : Char := Char.ofNat 125

/-- Double-quote character. -/
def dquote : Char := Char.ofNat 34

/-- Single-quote character. -/
def squote : Char := Char.ofNat 39

/-- The `["']` character class. -/
def isQuote (c : Char) : Bool :=
  c == dquote || c == squote

/-- Match a literal character sequence at the head of the text. -/
def expectLit : List Char → List Char → Option (List Char)
  | [], l => some l
  | _ :: _, [] => none
  | p :: ps, c :: cs => if c == p then expectLit ps cs else none

/-- Match a literal sequence case-insensitively (regex `i` flag, ASCII letters). -/
def expectLitCI : List Char → List Char → Option (List Char)
  | [], l => some l
  | _ :: _, [] => none
  | p :: ps, c :: cs => if toLowerAscii c == toLowerAscii p then expectLitCI ps cs else none

/-- Match one expected character at the head of the text. -/
def expectChar (x : Char) : List Char → Option (List Char)
  | [] => none
  | c :: cs => if c == x then some cs else none

/-- Greedy `class+`: take a maximal non-empty run of characters satisfying p. -/
def span1 (p : Char → Bool) (l : List Char) : Option (List Char × List Char) :=
  let t := l.takeWhile p
  if t.isEmpty then none else some (t, l.dropWhile p)

/-- Boolean list-prefix test. -/
def isPrefixL : List Char → List Char → Bool
  | [], _ => true
  | _ :: _, [] => false
  | p :: ps, c :: cs => p == c && isPrefixL ps cs

/-- `String.prototype.includes`: substring occurrence test. -/
def containsSub (pat : List Char) : List Char → Bool
  | [] => pat.isEmpty
  | c :: cs => isPrefixL pat (c :: cs) || containsSub pat cs

/-- Leftmost match: try the matcher at every suffix, left to right (regex search). -/
def searchFirst (m : List Char → Option (List Char)) : List Char → Option (List Char)
  | [] => m []
  | c :: cs =>
    match m (c :: cs) with
    | some r => some r
    | none => searchFirst m cs

/-- One step of the brace-depth counter of `extractBracedContent`. -/
def depthStep (d : Nat) (c : Char) : Nat :=
  if c == lbrace then d + 1 else if c == rbrace then d - 1 else d

/-- Number of characters consumed by the scanning loop of `extractBracedContent`:
it stops after the character that brings the depth to 0, or at end of text. -/
def scanLen : List Char → Nat → Nat
  | [], _ => 0
  | c :: cs, d =>
    let d2 := depthStep d c
    if d2 == 0 then 1 else 1 + scanLen cs d2

/-- Embeds `extractBracedContent(content, startIndex)`: depth starts at 1 and the
result is `content.slice(startIndex, i - 1)` where `i` is the index one past the
last scanned character. -/
def extractBracedContent (content : List Char) (startIndex : Nat) : List Char :=
  let rest := content.drop startIndex
  rest.take (scanLen rest 1 - 1)

/-- Brace depth after folding the depth counter over a text (spec-side notion). -/
def runDepth (d : Nat) (l : List Char) : Nat :=
  l.foldl depthStep d

/-- Spec-side notion: the brace depth, started at d, never reaches 0 while
scanning the text. -/
def neverZero (d : Nat) : List Char → Bool
  | [] => true
  | c :: cs =>
    let d2 := depthStep d c
    (d2 != 0) && neverZero d2 cs

/-- The HttpMethod union type of `src/types.ts`. -/
inductive HttpMethod : Type where
  | GET
  | POST
  | PUT
  | PATCH
  | DELETE
deriving DecidableEq

/-- Result type of the binding parser (interface HttpAnnotation in the source). -/
structure HttpAnn where
  method : HttpMethod
  path : List Char
  body : Option (List Char)
deriving DecidableEq

/-- ParsedMethod of `src/types.ts`. -/
structure ParsedMethod where
  name : List Char
  inputType : List Char
  outputType : List Char
  httpMethod : HttpMethod
  httpPath : List Char
  body : Option (List Char)
deriving DecidableEq

/-- ParsedService of `src/types.ts`. -/
structure ParsedService where
  packageName : List Char
  serviceName : List Char
  fullName : List Char
  methods : List ParsedMethod
deriving DecidableEq

/-- ServiceMatch of `src/parser.ts`. -/
structure ServiceMatch where
  name : List Char
  body : List Char
deriving DecidableEq

/-- The literal marker checked by the binding parser. -/
def googleMarker : List Char := ("google.api.http".toList)

/-- Lower-case spelling of a verb, as interpolated into the path regex. -/
def verbLower : HttpMethod → List Char
  | HttpMethod.GET => ("get".toList)
  | HttpMethod.POST => ("post".toList)
  | HttpMethod.PUT => ("put".toList)
  | HttpMethod.PATCH => ("patch".toList)
  | HttpMethod.DELETE => ("delete".toList)

/-- The fixed verb evaluation order of the source. -/
def httpVerbs : List HttpMethod :=
  [HttpMethod.GET, HttpMethod.POST, HttpMethod.PUT, HttpMethod.PATCH, HttpMethod.DELETE]

/-- Anchored match of the verb-path pattern
verb `\s*:\s*["']([^"']+)["']` (i flag) at the head of the text; returns the
captured path. -/
def matchVerbAt (verb : List Char) (l : List Char) : Option (List Char) :=
  match expectLitCI verb l with
  | none => none
  | some l1 =>
    match expectChar ':' (l1.dropWhile isSpaceJS) with
    | none => none
    | some l3 =>
      match l3.dropWhile isSpaceJS with
      | [] => none
      | q :: l5 =>
        if isQuote q then
          match span1 (fun c => !(isQuote c)) l5 with
          | none => none
          | some (path, l6) =>
            match l6 with
            | [] => none
            | q2 :: _ => if isQuote q2 then some path else none
        else none

/-- Anchored match of `body\s*:\s*["']([^"']+)["']` (case-sensitive) at the head
of the text; returns the captured selector. -/
def matchBodyAt (l : List Char) : Option (List Char) :=
  match expectLit ("body".toList) l with
  | none => none
  | some l1 =>
    match expectChar ':' (l1.dropWhile isSpaceJS) with
    | none => none
    | some l3 =>
      match l3.dropWhile isSpaceJS with
      | [] => none
      | q :: l5 =>
        if isQuote q then
          match span1 (fun c => !(isQuote c)) l5 with
          | none => none
          | some (sel, l6) =>
            match l6 with
            | [] => none
            | q2 :: _ => if isQuote q2 then some sel else none
        else none

/-- The for-loop over the fixed verb order: first verb whose pattern matches wins. -/
def tryVerbs : List HttpMethod → List Char → Option (HttpMethod × List Char)
  | [], _ => none
  | v :: vs, opts =>
    match searchFirst (matchVerbAt (verbLower v)) opts with
    | some path => some (v, path)
    | none => tryVerbs vs opts

/-- Embeds parseHttpAnnotation of `src/parser.ts`: requires the literal marker,
selects the first verb in the fixed order whose pattern occurs, then runs the
independent body-selector search on the same options block. -/
def parseHttpAnn (optionsBlock : List Char) : Option HttpAnn :=
  if containsSub googleMarker optionsBlock then
    match tryVerbs httpVerbs optionsBlock with
    | some (v, path) => some ⟨v, path, searchFirst matchBodyAt optionsBlock⟩
    | none => none
  else
    none

/-- Anchored match of `^\s*package\s+([\w.]+)\s*;` at a line-start position;
returns the captured dotted identifier. -/
def matchPackageAt (l : List Char) : Option (List Char) :=
  match expectLit ("package".toList) (l.dropWhile isSpaceJS) with
  | none => none
  | some l1 =>
    match span1 isSpaceJS l1 with
    | none => none
    | some (_, l2) =>
      match span1 isWordDotChar l2 with
      | none => none
      | some (name, l3) =>
        match expectChar ';' (l3.dropWhile isSpaceJS) with
        | none => none
        | some _ => some name

/-- Scan for the first line-start position where the package pattern matches
(the m-flag `^` anchor); the Bool records whether the current position is a
line start. -/
def findPackage : Bool → List Char → List Char
  | true, l =>
    (match matchPackageAt l with
     | some name => name
     | none =>
       match l with
       | [] => []
       | c :: cs => findPackage (isLineTerm c) cs)
  | false, l =>
    match l with
    | [] => []
    | c :: cs => findPackage (isLineTerm c) cs

/-- Embeds extractPackageName of `src/parser.ts`. -/
def extractPackageName (content : List Char) : List Char :=
  findPackage true content

/-- Anchored match of `service\s+(\w+)\s*\{` at the head of the text; returns
the captured name and the text right after the opening brace. -/
def matchServiceAt (l : List Char) : Option (List Char × List Char) :=
  match expectLit ("service".toList) l with
  | none => none
  | some l1 =>
    match span1 isSpaceJS l1 with
    | none => none
    | some (_, l2) =>
      match span1 isWordChar l2 with
      | none => none
      | some (name, l3) =>
        match expectChar lbrace (l3.dropWhile isSpaceJS) with
        | none => none
        | some l5 => some (name, l5)

/-- The global `serviceRegex.exec` loop of extractServices: the Nat counts the
positions still inside the previous match (the jump of `lastIndex` to the end
of the match), which are never offered to the matcher. -/
def scanServices : Nat → List Char → List ServiceMatch
  | _, [] => []
  | Nat.succ k, _ :: cs => scanServices k cs
  | 0, c :: cs =>
    match matchServiceAt (c :: cs) with
    | some (name, rest) =>
      let body := extractBracedContent rest 0
      let consumed := (c :: cs).length - rest.length
      (if body.isEmpty then [] else [⟨name, body⟩]) ++ scanServices (consumed - 1) cs
    | none => scanServices 0 cs

/-- Embeds extractServices of `src/parser.ts` (including its truthiness filter
that drops services whose extracted body is the empty string). -/
def extractServices (content : List Char) : List ServiceMatch :=
  scanServices 0 content

/-- Result of the rpc-header regex: captures and the text after the opening brace. -/
structure RpcMatch where
  name : List Char
  inputType : List Char
  outputType : List Char
  rest : List Char
deriving DecidableEq

/-- Anchored match of `rpc\s+(\w+)\s*\(\s*(\w+)\s*\)\s*returns\s*\(\s*([\w.]+)\s*\)\s*\{`
at the head of the text. -/
def matchRpcAt (l : List Char) : Option RpcMatch :=
  match expectLit ("rpc".toList) l with
  | none => none
  | some l1 =>
    match span1 isSpaceJS l1 with
    | none => none
    | some (_, l2) =>
      match span1 isWordChar l2 with
      | none => none
      | some (name, l3) =>
        match expectChar '(' (l3.dropWhile isSpaceJS) with
        | none => none
        | some l4 =>
          match span1 isWordChar (l4.dropWhile isSpaceJS) with
          | none => none
          | some (inT, l5) =>
            match expectChar ')' (l5.dropWhile isSpaceJS) with
            | none => none
            | some l6 =>
              match expectLit ("returns".toList) (l6.dropWhile isSpaceJS) with
              | none => none
              | some l7 =>
                match expectChar '(' (l7.dropWhile isSpaceJS) with
                | none => none
                | some l8 =>
                  match span1 isWordDotChar (l8.dropWhile isSpaceJS) with
                  | none => none
                  | some (outT, l9) =>
                    match expectChar ')' (l9.dropWhile isSpaceJS) with
                    | none => none
                    | some l10 =>
                      match expectChar lbrace (l10.dropWhile isSpaceJS) with
                      | none => none
                      | some l11 => some ⟨name, inT, outT, l11⟩

/-- The inner push of extractMethods: a singleton when the binding parser
succeeds on the method's options block, empty otherwise. -/
def methodsOfMatch (name inT outT opts : List Char) : List ParsedMethod :=
  match parseHttpAnn opts with
  | some a => [⟨name, inT, outT, a.method, a.path, a.body⟩]
  | none => []

/-- The global `rpcStartRegex.exec` loop of extractMethods; the Nat plays the
same skipped-positions role as in `scanServices`. -/
def scanMethods : Nat → List Char → List ParsedMethod
  | _, [] => []
  | Nat.succ k, _ :: cs => scanMethods k cs
  | 0, c :: cs =>
    match matchRpcAt (c :: cs) with
    | some r =>
      let opts := extractBracedContent r.rest 0
      let consumed := (c :: cs).length - r.rest.length
      methodsOfMatch r.name r.inputType r.outputType opts ++ scanMethods (consumed - 1) cs
    | none => scanMethods 0 cs

/-- Embeds extractMethods of `src/parser.ts`. -/
def extractMethods (serviceBody : List Char) : List ParsedMethod :=
  scanMethods 0 serviceBody

/-- Embeds parseProtoFile of `src/parser.ts`. -/
def parseProtoFile (content : List Char) : List ParsedService :=
  let pkg := extractPackageName content
  (extractServices content).filterMap (fun sm =>
    let ms := extractMethods sm.body
    if ms.isEmpty then none
    else some ⟨pkg, sm.name, if pkg.isEmpty then sm.name else pkg ++ '.' :: sm.name, ms⟩)

/-- Embeds parseProtoFiles of `src/parser.ts`: a push-loop over the input texts. -/
def parseProtoFiles (files : List (List Char)) : List ParsedService :=
  files.foldl (fun acc content => acc ++ parseProtoFile content) []

/-- Embeds getConnectPath of `src/parser.ts`. -/
def getConnectPath (service : ParsedService) (m : ParsedMethod) : List Char :=
  '/' :: (service.fullName ++ '/' :: m.name)

/-- Modelled from the spec: the REST Adapter Emitter (`generateRestAdapter`,
which lives in the repository's generator module, not under src/).  Per the
spec it is a pure function of the recovered model producing a single source
text with no timestamps or random identifiers; here it deterministically
renders each service's full name followed by the Connect path of each of its
methods and the verb of its binding. -/
def generateRestAdapter (model : List ParsedService) : List Char :=
  model.foldl
    (fun acc s =>
      acc ++ s.fullName ++ '\n' ::
        s.methods.foldl
          (fun a m => a ++ verbLower m.httpMethod ++ ' ' :: (getConnectPath s m ++ ['\n']))
          [])
    []

/-! ## Helper lemmas -/

theorem runDepth_cons (d : Nat) (c : Char) (cs : List Char) :
    runDepth d (c :: cs) = runDepth (depthStep d c) cs := rfl

theorem scanLen_append (body : List Char) : ∀ (d : Nat), neverZero d body = true →
    ∀ rest, scanLen (body ++ rest) d = body.length + scanLen rest (runDepth d body) := by
  induction body with
  | nil => intro d _ rest; simp [runDepth]
  | cons c cs ih =>
    intro d hnz rest
    simp only [neverZero, Bool.and_eq_true, bne_iff_ne, ne_eq] at hnz
    obtain ⟨hd2, hrest⟩ := hnz
    simp only [List.cons_append, scanLen, runDepth_cons]
    rw [if_neg (by simpa using hd2)]
    simp only [List.append_eq]
    rw [ih (depthStep d c) hrest rest]
    simp only [List.length_cons]
    omega

theorem scanLen_of_neverZero : ∀ (l : List Char) (d : Nat), neverZero d l = true →
    scanLen l d = l.length := by
  intro l
  induction l with
  | nil => intro d _; rfl
  | cons c cs ih =>
    intro d hnz
    simp only [neverZero, Bool.and_eq_true, bne_iff_ne, ne_eq] at hnz
    obtain ⟨hd2, hrest⟩ := hnz
    simp only [scanLen, List.length_cons]
    rw [if_neg (by simpa using hd2), ih (depthStep d c) hrest]
    omega

theorem parseHttpAnn_marker (opts : List Char) (a : HttpAnn)
    (h : parseHttpAnn opts = some a) : containsSub googleMarker opts = true := by
  by_cases hm : containsSub googleMarker opts = true
  · exact hm
  · simp only [parseHttpAnn, hm, if_false] at h
    simp at hm
    simp [hm] at h

theorem mem_methodsOfMatch (n i o opts : List Char) (m : ParsedMethod)
    (hm : m ∈ methodsOfMatch n i o opts) :
    parseHttpAnn opts = some ⟨m.httpMethod, m.httpPath, m.body⟩ := by
  unfold methodsOfMatch at hm
  cases h2 : parseHttpAnn opts with
  | none => rw [h2] at hm; simp at hm
  | some a =>
    rw [h2] at hm
    simp only [List.mem_singleton] at hm
    subst hm
    rfl

theorem mem_scanMethods : ∀ (l : List Char) (k : Nat) (m : ParsedMethod),
    m ∈ scanMethods k l →
    ∃ opts, parseHttpAnn opts = some ⟨m.httpMethod, m.httpPath, m.body⟩ := by
  intro l
  induction l with
  | nil => intro k m hm; simp [scanMethods] at hm
  | cons c cs ih =>
    intro k m hm
    cases k with
    | succ k0 => exact ih k0 m hm
    | zero =>
      rw [scanMethods] at hm
      cases hr : matchRpcAt (c :: cs) with
      | some r =>
        rw [hr] at hm
        simp only [List.mem_append] at hm
        cases hm with
        | inl hl => exact ⟨_, mem_methodsOfMatch _ _ _ _ m hl⟩
        | inr hrr => exact ih _ m hrr
      | none =>
        rw [hr] at hm
        exact ih 0 m hm

theorem mem_parseProtoFile (content : List Char) (s : ParsedService)
    (hs : s ∈ parseProtoFile content) :
    ∃ sm ∈ extractServices content,
      extractMethods sm.body ≠ [] ∧
      s = ⟨extractPackageName content, sm.name,
           if (extractPackageName content).isEmpty then sm.name
           else extractPackageName content ++ '.' :: sm.name,
           extractMethods sm.body⟩ := by
  simp only [parseProtoFile] at hs
  rcases List.mem_filterMap.mp hs with ⟨sm, hsm, hf⟩
  refine ⟨sm, hsm, ?_⟩
  by_cases he : (extractMethods sm.body).isEmpty
  · rw [if_pos he] at hf
    cases hf
  · rw [if_neg he] at hf
    refine ⟨by simpa [List.isEmpty_iff] using he, ?_⟩
    cases hf
    rfl

/-! ## Claim theorems -/

/-- C3: for every text and start index positioned just after an opening brace,
when the remaining text decomposes as a region in which the nesting depth
(started at 1) never returns to 0 and ends back at 1, followed by a closing
brace, the brace scanner returns exactly that region, up to but not including
the brace that brings the depth back to 0 — so nested brace pairs inside the
region are honored. -/
theorem c3_balanced_region (content : List Char) (startIndex : Nat) (body tail : List Char)
    (hsplit : content.drop startIndex = body ++ rbrace :: tail)
    (hnz : neverZero 1 body = true) (hrd : runDepth 1 body = 1) :
    extractBracedContent content startIndex = body := by
  simp only [extractBracedContent]
  rw [hsplit, scanLen_append body 1 hnz (rbrace :: tail), hrd]
  have hd : depthStep 1 rbrace = 0 := by decide
  have h1 : scanLen (rbrace :: tail) 1 = 1 := by
    simp [scanLen, hd]
  rw [h1]
  simp only [Nat.add_sub_cancel]
  exact List.take_left body (rbrace :: tail)

theorem c3_balanced_region_witness :
    extractBracedContent (("x\x7ba\x7bb\x7dc\x7drest".toList)) 2 = (("a\x7bb\x7dc".toList)) :=
  c3_balanced_region (("x\x7ba\x7bb\x7dc\x7drest".toList)) 2 (("a\x7bb\x7dc".toList))
    (("rest".toList)) (by decide) (by decide) (by decide)

/-- C4, as claimed: when the depth never returns to 0, the scanner allegedly
returns the entire remaining text from the start index onward.  Refuted: on
the text "ab" with start index 0 the depth never returns to 0, yet the
returned region is "a", not the whole remaining text "ab" (the final
character is cut off by the slice to the end index minus one). -/
theorem c4_whole_tail_counterexample :
    neverZero 1 ((("ab".toList)).drop 0) = true ∧
    extractBracedContent (("ab".toList)) 0 ≠ (("ab".toList)).drop 0 := by decide

/-- C4 (amended): for every text and start index such that the nesting depth
(starting at 1) never returns to 0 before the end of the text, the brace
scanner returns the remaining text from the start index with its final
character removed (the slice ends at the end-of-text index minus one), and no
error is raised. -/
theorem c4_truncates_last (content : List Char) (startIndex : Nat)
    (h : neverZero 1 (content.drop startIndex) = true) :
    extractBracedContent content startIndex = (content.drop startIndex).dropLast := by
  simp only [extractBracedContent]
  rw [scanLen_of_neverZero _ _ h, List.dropLast_eq_take]

theorem c4_truncates_last_witness :
    extractBracedContent (("ab".toList)) 0 = ((("ab".toList)).drop 0).dropLast :=
  c4_truncates_last (("ab".toList)) 0 (by decide)

/-- C10: the verb keyword is matched as a bare case-insensitive substring with
no word-boundary anchoring: an options block holding the marker and the
non-verb key widget: "/x" (and no standalone verb pair) yields a binding with
verb GET and path "/x", because the trailing letters of widget match the get
pattern. -/
theorem c10_no_word_boundary :
    parseHttpAnn (("google.api.http widget: \"/x\"".toList)) =
      some ⟨HttpMethod.GET, ("/x".toList), none⟩ := by decide

/-- C1: every method present in the model returned by parseProtoFile was
accepted by the binding parser on an options block that contains the literal
marker google.api.http (so any method whose block lacks the marker is absent),
and no service entry with an empty methods list is ever produced (a service
whose methods are all excluded is itself absent). -/
theorem c1_marker_filter (content : List Char) (s : ParsedService)
    (hs : s ∈ parseProtoFile content) :
    s.methods ≠ [] ∧
    ∀ m ∈ s.methods, ∃ opts, containsSub googleMarker opts = true ∧
      parseHttpAnn opts = some ⟨m.httpMethod, m.httpPath, m.body⟩ := by
  rcases mem_parseProtoFile content s hs with ⟨sm, _, hne, hseq⟩
  subst hseq
  refine ⟨by simpa using hne, ?_⟩
  intro m hm
  have hm2 : m ∈ scanMethods 0 sm.body := hm
  rcases mem_scanMethods sm.body 0 m hm2 with ⟨opts, hopts⟩
  exact ⟨opts, parseHttpAnn_marker opts _ hopts, hopts⟩

theorem c1_marker_filter_witness :
    ∃ opts, containsSub googleMarker opts = true ∧
      parseHttpAnn opts = some ⟨HttpMethod.GET, ("/v1/users".toList), none⟩ :=
  (c1_marker_filter
    (("package users.v1; service UserService \x7b rpc GetUser(GetUserRequest) returns (GetUserResponse) \x7b option (google.api.http) = \x7b get: \"/v1/users\" \x7d; \x7d; \x7d".toList))
    ⟨("users.v1".toList), ("UserService".toList), ("users.v1.UserService".toList),
      [⟨("GetUser".toList), ("GetUserRequest".toList), ("GetUserResponse".toList),
        HttpMethod.GET, ("/v1/users".toList), none⟩]⟩
    (by decide)).2
    ⟨("GetUser".toList), ("GetUserRequest".toList), ("GetUserResponse".toList),
      HttpMethod.GET, ("/v1/users".toList), none⟩
    (by decide)

/-- C2: the binding parser tries the verbs in the fixed order GET, POST, PUT,
PATCH, DELETE and returns on the first verb whose pattern occurs: whenever the
options block contains the marker and the get pattern matches somewhere in the
block, the result is that GET binding (with the independently searched body
selector), regardless of any later verb also present. -/
theorem c2_verb_priority (opts path : List Char)
    (hmk : containsSub googleMarker opts = true)
    (hget : searchFirst (matchVerbAt (verbLower HttpMethod.GET)) opts = some path) :
    parseHttpAnn opts = some ⟨HttpMethod.GET, path, searchFirst matchBodyAt opts⟩ := by
  simp only [parseHttpAnn, hmk, if_true]
  simp only [httpVerbs, tryVerbs, hget]

theorem c2_verb_priority_witness :
    parseHttpAnn (("google.api.http get: \"/a\" post: \"/b\"".toList)) =
      some ⟨HttpMethod.GET, ("/a".toList),
        searchFirst matchBodyAt (("google.api.http get: \"/a\" post: \"/b\"".toList))⟩ :=
  c2_verb_priority (("google.api.http get: \"/a\" post: \"/b\"".toList)) (("/a".toList))
    (by decide) (by decide)

/-- C5: every service in the result of parseProtoFile carries the package name
extracted by extractPackageName (first line-start package declaration, empty
when absent), and its full name is the dotted concatenation of that package
name with the service name when the package name is non-empty, and the bare
service name when it is empty. -/
theorem c5_package_fullname (content : List Char) (s : ParsedService)
    (hs : s ∈ parseProtoFile content) :
    s.packageName = extractPackageName content ∧
    s.fullName = (if (extractPackageName content).isEmpty then s.serviceName
                  else extractPackageName content ++ '.' :: s.serviceName) := by
  rcases mem_parseProtoFile content s hs with ⟨sm, _, _, hseq⟩
  subst hseq
  exact ⟨rfl, rfl⟩

theorem c5_package_fullname_witness :
    (⟨("users.v1".toList), ("UserService".toList), ("users.v1.UserService".toList),
      [⟨("GetUser".toList), ("GetUserRequest".toList), ("GetUserResponse".toList),
        HttpMethod.GET, ("/v1/users".toList), none⟩]⟩ : ParsedService).packageName =
      extractPackageName
        (("package users.v1;\nservice UserService \x7b rpc GetUser(GetUserRequest) returns (GetUserResponse) \x7b option (google.api.http) = \x7b get: \"/v1/users\" \x7d; \x7d; \x7d".toList)) ∧
    (⟨("users.v1".toList), ("UserService".toList), ("users.v1.UserService".toList),
      [⟨("GetUser".toList), ("GetUserRequest".toList), ("GetUserResponse".toList),
        HttpMethod.GET, ("/v1/users".toList), none⟩]⟩ : ParsedService).fullName =
      (if (extractPackageName
            (("package users.v1;\nservice UserService \x7b rpc GetUser(GetUserRequest) returns (GetUserResponse) \x7b option (google.api.http) = \x7b get: \"/v1/users\" \x7d; \x7d; \x7d".toList))).isEmpty
       then (⟨("users.v1".toList), ("UserService".toList), ("users.v1.UserService".toList),
        [⟨("GetUser".toList), ("GetUserRequest".toList), ("GetUserResponse".toList),
          HttpMethod.GET, ("/v1/users".toList), none⟩]⟩ : ParsedService).serviceName
       else extractPackageName
            (("package users.v1;\nservice UserService \x7b rpc GetUser(GetUserRequest) returns (GetUserResponse) \x7b option (google.api.http) = \x7b get: \"/v1/users\" \x7d; \x7d; \x7d".toList)) ++
          '.' :: (⟨("users.v1".toList), ("UserService".toList), ("users.v1.UserService".toList),
            [⟨("GetUser".toList), ("GetUserRequest".toList), ("GetUserResponse".toList),
              HttpMethod.GET, ("/v1/users".toList), none⟩]⟩ : ParsedService).serviceName) :=
  c5_package_fullname
    (("package users.v1;\nservice UserService \x7b rpc GetUser(GetUserRequest) returns (GetUserResponse) \x7b option (google.api.http) = \x7b get: \"/v1/users\" \x7d; \x7d; \x7d".toList))
    ⟨("users.v1".toList), ("UserService".toList), ("users.v1.UserService".toList),
      [⟨("GetUser".toList), ("GetUserRequest".toList), ("GetUserResponse".toList),
        HttpMethod.GET, ("/v1/users".toList), none⟩]⟩
    (by decide)

/-- C6: whenever the binding parser returns a binding, its body selector is
exactly the result of the single separate search of the same options block for
the body pattern, independently of which verb matched: the captured value when
the pattern occurs (with * preserved verbatim), absent when it does not. -/
theorem c6_body_selector (opts : List Char) (a : HttpAnn)
    (h : parseHttpAnn opts = some a) :
    a.body = searchFirst matchBodyAt opts := by
  simp only [parseHttpAnn] at h
  by_cases hmk : containsSub googleMarker opts = true
  · rw [if_pos hmk] at h
    cases htv : tryVerbs httpVerbs opts with
    | none => rw [htv] at h; cases h
    | some vp =>
      rw [htv] at h
      cases vp with
      | mk v path => cases h; rfl
  · rw [if_neg (by simpa using hmk)] at h
    cases h

theorem c6_body_selector_witness :
    (⟨HttpMethod.POST, ("/v1/users".toList), some ("*".toList)⟩ : HttpAnn).body =
      searchFirst matchBodyAt
        (("google.api.http post: \"/v1/users\" body: \"*\"".toList)) :=
  c6_body_selector (("google.api.http post: \"/v1/users\" body: \"*\"".toList))
    ⟨HttpMethod.POST, ("/v1/users".toList), some ("*".toList)⟩ (by decide)

/-- C7: parseProtoFiles is the concatenation, in input order, of parseProtoFile
applied to each input text, with no de-duplication across files: two texts
producing services with the same fully-qualified name contribute two separate
entries. -/
theorem c7_concat_no_dedup (files : List (List Char)) :
    parseProtoFiles files = (files.map parseProtoFile).flatten := by
  have aux : ∀ (fs : List (List Char)) (acc : List ParsedService),
      fs.foldl (fun a c => a ++ parseProtoFile c) acc = acc ++ (fs.map parseProtoFile).flatten := by
    intro fs
    induction fs with
    | nil => intro acc; simp
    | cons f fs0 ih => intro acc; simp [ih, List.append_assoc]
  simpa [parseProtoFiles] using aux files []

/-- C8: every extraction function of the parser is a total function returning a
definite, possibly empty, value on every input, including malformed text;
absence is structural (empty list or none), never an exception, and in
particular parseProtoFile never yields a service entry with an empty methods
list. -/
theorem c8_no_exceptions (content bodyText : List Char) (startIndex : Nat)
    (files : List (List Char)) :
    (∃ l, parseProtoFile content = l) ∧ (∃ v, extractServices content = v) ∧
    (∃ p, extractPackageName content = p) ∧
    (∃ b, extractBracedContent content startIndex = b) ∧
    (∃ ms, extractMethods bodyText = ms) ∧ (∃ r, parseProtoFiles files = r) ∧
    (∀ s ∈ parseProtoFile content, s.methods ≠ []) := by
  refine ⟨⟨_, rfl⟩, ⟨_, rfl⟩, ⟨_, rfl⟩, ⟨_, rfl⟩, ⟨_, rfl⟩, ⟨_, rfl⟩, ?_⟩
  intro s hs
  rcases mem_parseProtoFile content s hs with ⟨sm, _, hne, hseq⟩
  subst hseq
  simpa using hne

/-- C9: the pipeline is deterministic: two runs of parseProtoFiles on the same
list of input texts return equal models, and the emitted document of the
(spec-modelled) generator is identical on equal models. -/
theorem c9_two_runs_identical (files1 files2 : List (List Char)) (h : files1 = files2) :
    parseProtoFiles files1 = parseProtoFiles files2 ∧
    generateRestAdapter (parseProtoFiles files1) =
      generateRestAdapter (parseProtoFiles files2) := by
  subst h
  exact ⟨rfl, rfl⟩

theorem c9_two_runs_identical_witness :
    parseProtoFiles [("package a; service S \x7b \x7d".toList)] =
      parseProtoFiles [("package a; service S \x7b \x7d".toList)] ∧
    generateRestAdapter (parseProtoFiles [("package a; service S \x7b \x7d".toList)]) =
      generateRestAdapter (parseProtoFiles [("package a; service S \x7b \x7d".toList)]) :=
  c9_two_runs_identical [("package a; service S \x7b \x7d".toList)]
    [("package a; service S \x7b \x7d".toList)] rfl
